import Mathlib

/-!
Verification of the free-text transaction extractor in src/lib/parser.ts
(moneytrack).  The parser is shallowly embedded: strings are lists of
characters, the JavaScript regular expressions of the source are compiled by
hand into executable matching functions with the same backtracking semantics,
and JavaScript numbers (which in this program are always nonnegative decimal
literals, possibly scaled by a power-of-ten unit multiplier) are represented
exactly as pairs mantissa / 10 ^ exponent, with a valuation into the rational
numbers used for specification statements.  The wall clock consumed by the
date normalizer is modelled as an explicit calendar-date parameter (a UTC
clock, so that the calendar date of the clock and of the rendered ISO string
agree).
-/

/-- Characters of the source text; strings are lists of characters. -/
abbrev Str := List Char

/-- The type aliases of src/types/finance.ts. -/
inductive Currency
  | USD
  | VND
deriving DecidableEq, Repr

inductive TransactionType
  | income
  | expense
deriving DecidableEq, Repr

inductive AppLanguage
  | en
  | vi
deriving DecidableEq, Repr

inductive InputMode
  | text
  | voice
  | image
  | manual
deriving DecidableEq, Repr

/-- The ten ASCII digits, the character class d of the source regexes. -/
def digitChars : List Char := ['0', '1', '2', '3', '4', '5', '6', '7', '8', '9']

/-- Membership in the regex character class d. -/
def isDigitCh (c : Char) : Bool := decide (c ∈ digitChars)

/-- The two group and decimal separators accepted by the number grammar. -/
def isSepCh (c : Char) : Bool := decide (c ∈ ['.', ','])

/-- The JavaScript regex class s (whitespace). -/
def jsIsSpace (c : Char) : Bool :=
  decide (c ∈ [' ', '\t', '\n', '\r', '\x0b', '\x0c', ' '])

/-- The JavaScript regex class w used by word boundaries: ASCII letters,
digits and underscore.  Letters with diacritics are not word characters. -/
def isWordChar (c : Char) : Bool :=
  (decide ('a' ≤ c) && decide (c ≤ 'z')) ||
  (decide ('A' ≤ c) && decide (c ≤ 'Z')) ||
  isDigitCh c || decide (c = '_')

/-- Uppercase-to-lowercase table for String.prototype.toLowerCase restricted
to the characters that can influence this parser: the ASCII letters and the
Vietnamese letter Đ appearing in the lexicons.  Other characters are left
unchanged. -/
def lowerTable : List (Char × Char) :=
  [('A', 'a'), ('B', 'b'), ('C', 'c'), ('D', 'd'), ('E', 'e'), ('F', 'f'),
   ('G', 'g'), ('H', 'h'), ('I', 'i'), ('J', 'j'), ('K', 'k'), ('L', 'l'),
   ('M', 'm'), ('N', 'n'), ('O', 'o'), ('P', 'p'), ('Q', 'q'), ('R', 'r'),
   ('S', 's'), ('T', 't'), ('U', 'u'), ('V', 'v'), ('W', 'w'), ('X', 'x'),
   ('Y', 'y'), ('Z', 'z'), ('Đ', 'đ')]

/-- Per-character model of toLowerCase. -/
def jsToLower (c : Char) : Char :=
  match lowerTable.find? (fun p => p.1 = c) with
  | some p => p.2
  | none => c

/-- Model of text.toLowerCase(). -/
def lowerStr (s : Str) : Str := s.map jsToLower

/-- Matching a literal at the head of the text: returns the remainder when
the literal is a prefix. -/
def stripLit : Str → Str → Option Str
  | [], s => some s
  | _ :: _, [] => none
  | p :: ps, c :: cs => if c = p then stripLit ps cs else none

/-- Tries a position-wise matcher at every suffix, left to right. -/
def scanFirst {α : Type} (f : Str → Option α) : Str → Option α
  | [] => f []
  | c :: cs =>
    match f (c :: cs) with
    | some x => some x
    | none => scanFirst f cs

/-- True when a position-wise test succeeds at some suffix. -/
def scanAny (f : Str → Bool) : Str → Bool
  | [] => f []
  | c :: cs => f (c :: cs) || scanAny f cs

/-- Substring containment, the meaning of regex.test for a literal pattern. -/
def containsSub (pat : Str) (s : Str) : Bool :=
  scanAny (fun t => (stripLit pat t).isSome) s

/-- A word boundary directly after the matched text: end of input or a
non-word character. -/
def bndryW : Str → Bool
  | [] => true
  | c :: _ => !isWordChar c

/-- Position-wise test for a literal followed by a word boundary, as in the
source patterns k-backslash-b and tr-backslash-b. -/
def matchLitEnd (pat : Str) (s : Str) : Bool :=
  match stripLit pat s with
  | some r => bndryW r
  | none => false

/-- Maximal run of characters satisfying a predicate, with the remainder. -/
def takeRun (p : Char → Bool) : Str → Str × Str
  | [] => ([], [])
  | c :: cs =>
    if p c then
      let r := takeRun p cs
      (c :: r.1, r.2)
    else ([], c :: cs)

/-- Maximal digit run. -/
def takeDigitRun : Str → Str × Str := takeRun isDigitCh

/-- Exact decimal representation of the JavaScript numbers this parser
produces: the value is mant / 10 ^ exp.  All numeric tokens of the source
are nonnegative, so a natural mantissa suffices. -/
structure JNum where
  mant : Nat
  exp : Nat
deriving DecidableEq, Repr

/-- Valuation of a parsed number as a rational, used in specifications. -/
def JNum.val (x : JNum) : ℚ := (x.mant : ℚ) / 10 ^ x.exp

/-- The JavaScript comparison a < b on the represented values, computed by
cross multiplication (denominators are positive powers of ten). -/
def jlt (a b : JNum) : Bool := decide (a.mant * 10 ^ b.exp < b.mant * 10 ^ a.exp)

/-- Decimal value of a digit string, as produced by Number on an all-digit
string. -/
def natOfDigits (s : Str) : Nat :=
  s.foldl (fun n c => 10 * n + (c.toNat - 48)) 0

/-- Splits on the dot character; a list of dot-free parts. -/
def splitOnDot : Str → List Str
  | [] => [[]]
  | c :: cs =>
    if c = '.' then [] :: splitOnDot cs
    else
      match splitOnDot cs with
      | p :: ps => (c :: p) :: ps
      | [] => [[c]]

/-- Model of the JavaScript Number conversion restricted to the strings this
parser can feed it: digit-and-dot strings denote decimal literals, the empty
string denotes 0, and anything else (in particular a string still containing
a comma, or several dots) is NaN, rendered as none. -/
def jsNumber (s : Str) : Option JNum :=
  if s = [] then some ⟨0, 0⟩
  else if s.all (fun c => isDigitCh c || c = '.') then
    match splitOnDot s with
    | [w] => some ⟨natOfDigits w, 0⟩
    | [a, b] => if a = [] && b = [] then none else some ⟨natOfDigits (a ++ b), b.length⟩
    | _ => none
  else none

/-!  The three date-scrubbing replacements of parseAmount.  Each source
pattern is compiled to a position-wise matcher taking the word-character
status of the preceding character (for the leading word boundary) and
returning the remainder of the text after the match.  Every pattern begins
and ends with a digit, so the leading boundary holds exactly when the
preceding character is not a word character, and the character preceding the
continuation of the scan is always a word character. -/

/-- Matcher for the pattern of four digits, dash, two digits, dash, two
digits, between word boundaries (the ISO-date scrub). -/
def matchR1 (prevW : Bool) (s : Str) : Option Str :=
  if prevW then none
  else
    let p1 := takeDigitRun s
    if p1.1.length = 4 then
      match p1.2 with
      | '-' :: r2 =>
        let p2 := takeDigitRun r2
        if p2.1.length = 2 then
          match p2.2 with
          | '-' :: r4 =>
            let p3 := takeDigitRun r4
            if p3.1.length = 2 && bndryW p3.2 then some p3.2 else none
          | _ => none
        else none
      | _ => none
    else none

/-- Matcher for the day-slash-month with optional slash-year pattern between
word boundaries (the numeric-date scrub).  The optional year of two to four
digits is taken greedily; when it cannot be completed with a trailing word
boundary, the match ends after the month, whose trailing boundary is then
required. -/
def matchR2 (prevW : Bool) (s : Str) : Option Str :=
  if prevW then none
  else
    let p1 := takeDigitRun s
    if 1 ≤ p1.1.length && p1.1.length ≤ 2 then
      match p1.2 with
      | '/' :: r2 =>
        let p2 := takeDigitRun r2
        if 1 ≤ p2.1.length && p2.1.length ≤ 2 then
          match p2.2 with
          | '/' :: r4 =>
            let p3 := takeDigitRun r4
            if 2 ≤ p3.1.length && p3.1.length ≤ 4 && bndryW p3.2 then some p3.2
            else some ('/' :: r4)
          | r3 => if bndryW r3 then some r3 else none
        else none
      | _ => none
    else none

/-- Matcher for the day-word pattern: the literal ngày or day, at least one
whitespace character, then one or two digits with a trailing boundary. -/
def matchR3 (prevW : Bool) (s : Str) : Option Str :=
  if prevW then none
  else
    let lit :=
      match stripLit "ngày".data s with
      | some r => some r
      | none => stripLit "day".data s
    match lit with
    | some r1 =>
      let w := takeRun jsIsSpace r1
      if w.1.length = 0 then none
      else
        let d := takeDigitRun w.2
        if 1 ≤ d.1.length && d.1.length ≤ 2 && bndryW d.2 then some d.2 else none
    | none => none

/-- One global replace pass: each match is replaced by a single space and
scanning resumes after it; the fuel is an upper bound on the number of steps
(one character or one match per step). -/
def scrubWithFuel (m : Bool → Str → Option Str) : Nat → Bool → Str → Str
  | 0, _, s => s
  | _ + 1, _, [] => []
  | fuel + 1, prevW, c :: cs =>
    match m prevW (c :: cs) with
    | some rest => ' ' :: scrubWithFuel m fuel true rest
    | none => c :: scrubWithFuel m fuel (isWordChar c) cs

/-- The three date scrubs of parseAmount, in source order. -/
def scrubDates (s : Str) : Str :=
  let s1 := scrubWithFuel matchR1 (s.length + 1) false s
  let s2 := scrubWithFuel matchR2 (s1.length + 1) false s1
  scrubWithFuel matchR3 (s2.length + 1) false s2

/-!  The numeric-token scanner of parseAmount. -/

/-- Maximal sequence of repetitions of a separator followed by exactly three
digits, with the remainder: the plus-group of the grouped-thousands
alternative. -/
def groupReps : Str → Str × Str
  | c :: c1 :: c2 :: c3 :: rest =>
    if isSepCh c && isDigitCh c1 && isDigitCh c2 && isDigitCh c3 then
      let r := groupReps rest
      (c :: c1 :: c2 :: c3 :: r.1, r.2)
    else ([], c :: c1 :: c2 :: c3 :: rest)
  | s => ([], s)

/-- The optional trailing separator-and-digits group, taken greedily. -/
def optDec : Str → Str × Str
  | c :: cs =>
    if isSepCh c then
      let d := takeDigitRun cs
      if d.1.length = 0 then ([], c :: cs) else (c :: d.1, d.2)
    else ([], c :: cs)
  | [] => ([], [])

/-- First alternative of the numeric-token group: one to three digits, at
least one separator-and-three-digits group, and an optional trailing
separator-and-digits group.  The leading digit run must be the whole run
(a longer run leaves a digit where a separator is required). -/
def tokenAlt1 (s : Str) : Option (Str × Str) :=
  let lead := takeDigitRun s
  if 1 ≤ lead.1.length && lead.1.length ≤ 3 then
    let g := groupReps lead.2
    if g.1.length = 0 then none
    else
      let o := optDec g.2
      some (lead.1 ++ g.1 ++ o.1, o.2)
  else none

/-- Second alternative: a digit run with an optional separator-and-digits
group. -/
def tokenAlt2 (s : Str) : Option (Str × Str) :=
  let d := takeDigitRun s
  if d.1.length = 0 then none
  else
    let o := optDec d.2
    some (d.1 ++ o.1, o.2)

/-- The unit and currency suffixes of the token regex, in alternation
order; the first literal that matches wins. -/
def unitLits : List Str :=
  ["k".data, "tr".data, "m".data, "mil".data, "xị".data, "cu".data,
   "củ".data, "chai".data, "vnd".data, "đ".data, "usd".data, "$".data]

/-- Tries the unit alternatives in order at the head of the text. -/
def matchUnit : List Str → Str → Option (Str × Str)
  | [], _ => none
  | u :: us, s =>
    match stripLit u s with
    | some r => some (u, r)
    | none => matchUnit us s

/-- Position-wise matcher for one numeric token: the number (first
alternative preferred), optional whitespace, and an optional unit or
currency suffix.  Returns the number text, the suffix when present, and the
remainder of the text after the whole match. -/
def matchToken (s : Str) : Option (Str × Option Str × Str) :=
  let num :=
    match tokenAlt1 s with
    | some x => some x
    | none => tokenAlt2 s
  match num with
  | none => none
  | some (numStr, rest) =>
    let w := takeRun jsIsSpace rest
    match matchUnit unitLits w.2 with
    | some (u, r2) => some (numStr, some u, r2)
    | none => some (numStr, none, w.2)

/-- The global exec loop over the scrubbed text: at each position the token
matcher is tried; on success scanning resumes after the match.  The fuel is
an upper bound on the number of steps. -/
def scanTokens : Nat → Str → List (Str × Option Str)
  | 0, _ => []
  | _ + 1, [] => []
  | fuel + 1, c :: cs =>
    match matchToken (c :: cs) with
    | some (numStr, u, rest) => (numStr, u) :: scanTokens fuel rest
    | none => scanTokens fuel cs

/-!  parseNumberToken. -/

/-- Anchored tail of the grouped-thousands test after the leading digits:
a nonempty sequence of separator-and-digit-run segments ending the string,
where every segment before the last carries exactly three digits and the
last carries three digits (a final repetition) or, when a repetition has
already been seen, at least one digit (the optional decimal tail).  The fuel
decreases by one segment per step. -/
def groupedSegs : Nat → Bool → Str → Bool
  | 0, _, _ => false
  | fuel + 1, seen, s =>
    match s with
    | [] => false
    | c :: rest =>
      if isSepCh c then
        let d := takeDigitRun rest
        if d.2 = [] then
          d.1.length = 3 || (seen && decide (1 ≤ d.1.length))
        else (d.1.length = 3) && groupedSegs fuel true d.2
      else false

/-- The anchored grouped-thousands shape test of parseNumberToken: one to
three digits followed by separated three-digit groups with an optional
decimal tail, covering the whole string. -/
def groupedFull (s : Str) : Bool :=
  let lead := takeDigitRun s
  (1 ≤ lead.1.length && lead.1.length ≤ 3) && groupedSegs (s.length + 1) false lead.2

/-- Replaces the first comma by a dot: the String.prototype.replace call of
the decimal branch, whose string pattern replaces only the first
occurrence. -/
def replaceFirstComma : Str → Str
  | [] => []
  | c :: cs => if c = ',' then '.' :: cs else c :: replaceFirstComma cs

/-- parseNumberToken of the source: whitespace is removed, the
grouped-thousands shape is parsed by dropping its separators, and any other
shape is parsed as a decimal after turning the first comma into a dot. -/
def parseNumberToken (numText : Str) : Option JNum :=
  let compact := numText.filter (fun c => !jsIsSpace c)
  if compact = [] then none
  else if groupedFull compact then
    jsNumber (compact.filter (fun c => !isSepCh c))
  else jsNumber (replaceFirstComma compact)

/-- The unit multiplier of parseAmount. -/
def unitMultiplier (unit : Option Str) : Nat :=
  match unit with
  | none => 1
  | some u =>
    if u = "k".data || u = "xị".data then 1000
    else if u = "tr".data || u = "củ".data || u = "cu".data || u = "chai".data
        || u = "m".data || u = "mil".data then 1000000
    else 1

/-- The candidate list of parseAmount: every numeric token of the scrubbed
lowercased text whose parsed number is neither NaN nor zero (the falsy
check of the source), scaled by its unit multiplier and tagged with the
presence of an explicit unit or currency suffix. -/
def amountCandidates (raw : Str) : List (JNum × Bool) :=
  let scrubbed := scrubDates (lowerStr raw)
  (scanTokens (scrubbed.length + 1) scrubbed).filterMap fun t =>
    match parseNumberToken t.1 with
    | none => none
    | some v =>
      if v.mant = 0 then none
      else some (⟨v.mant * unitMultiplier t.2, v.exp⟩, t.2.isSome)

/-- The pool the maximum is taken over: the unit-bearing candidates when any
exist, otherwise all candidates. -/
def selectPool (cands : List (JNum × Bool)) : List (JNum × Bool) :=
  let withUnits := cands.filter (fun c => c.2)
  if 0 < withUnits.length then withUnits else cands

/-- One step of the reduce of parseAmount: keep the larger value. -/
def selStep (best : JNum) (cur : JNum × Bool) : JNum :=
  if jlt best cur.1 then cur.1 else best

/-- The reduce of parseAmount: the largest candidate value of the pool,
starting from zero. -/
def selectedValue (cands : List (JNum × Bool)) : JNum :=
  (selectPool cands).foldl selStep ⟨0, 0⟩

/-- The colloquial-truncation cue of parseAmount, tested on the lowercased
unscrubbed text. -/
def heurCue (l : Str) : Bool :=
  containsSub "ăn".data l || containsSub "cafe".data l || containsSub "grab".data l ||
  containsSub "com".data l || containsSub "trà".data l || containsSub "tea".data l ||
  containsSub "mua".data l

/-- parseAmount of the source: scrub dates, scan tokens, keep truthy
candidates, prefer unit-bearing candidates, take the maximum, and apply the
under-1000 VND correction. -/
def parseAmount (raw : Str) (currency : Currency) : Option JNum :=
  let lower := lowerStr raw
  let cands := amountCandidates raw
  if cands = [] then none
  else
    let v := selectedValue cands
    if currency = Currency.VND && jlt v ⟨1000, 0⟩ && heurCue lower then
      some ⟨v.mant * 1000, v.exp⟩
    else some v

/-!  The lexicons and classifiers. -/

/-- The USD cue of detectCurrency. -/
def usdCue (l : Str) : Bool :=
  containsSub "$".data l || containsSub "usd".data l || containsSub "dollar".data l

/-- The VND cue of detectCurrency: the literals vnd, đ, triệu, nghìn, ngan
anywhere, or k or tr at a word end. -/
def vndCue (l : Str) : Bool :=
  containsSub "vnd".data l || containsSub "đ".data l ||
  scanAny (matchLitEnd "k".data) l || scanAny (matchLitEnd "tr".data) l ||
  containsSub "triệu".data l || containsSub "nghìn".data l || containsSub "ngan".data l

/-- detectCurrency of the source. -/
def detectCurrency (text : Str) (fallback : Currency) : Currency :=
  let lower := lowerStr text
  if usdCue lower then Currency.USD
  else if vndCue lower then Currency.VND
  else fallback

def incomeKeywords : List Str :=
  ["salary".data, "income".data, "bonus".data, "freelance".data, "received".data,
   "lương".data, "thu".data, "thưởng".data, "được trả".data, "chuyển khoản vào".data]

def expenseKeywords : List Str :=
  ["spent".data, "pay".data, "bought".data, "bill".data, "rent".data, "cafe".data,
   "coffee".data, "ăn".data, "mua".data, "chi".data, "tiền nhà".data, "xăng".data,
   "grab".data, "ăn trưa".data, "an com".data]

/-- detectType of the source. -/
def detectType (text : Str) (preferred : Option TransactionType) : TransactionType :=
  match preferred with
  | some t => t
  | none =>
    let lower := lowerStr text
    if incomeKeywords.any (fun k => containsSub k lower) then TransactionType.income
    else if expenseKeywords.any (fun k => containsSub k lower) then TransactionType.expense
    else TransactionType.expense

/-- One ordered category rule: the literal alternatives of its
case-insensitive regex and the bilingual label pair. -/
structure CatRule where
  keywords : List Str
  en : Str
  vi : Str

/-- The ordered category rules of the source. -/
def categoryRules : List CatRule :=
  [⟨["coffee".data, "cafe".data, "trà".data, "tea".data, "ăn".data, "com".data,
     "food".data, "grocery".data, "siêu thị".data, "restaurant".data, "bún".data,
     "phở".data], "Food & Drink".data, "Ăn uống".data⟩,
   ⟨["rent".data, "tiền nhà".data, "nhà".data, "apartment".data, "hostel".data,
     "mortgage".data], "Housing".data, "Nhà ở".data⟩,
   ⟨["grab".data, "uber".data, "xăng".data, "bus".data, "taxi".data, "transport".data,
     "petrol".data, "fuel".data, "vé".data, "parking".data], "Transport".data,
    "Di chuyển".data⟩,
   ⟨["salary".data, "lương".data, "bonus".data, "thưởng".data, "freelance".data,
     "payroll".data, "income".data], "Salary".data, "Thu nhập".data⟩,
   ⟨["bill".data, "internet".data, "điện".data, "nước".data, "phone".data,
     "wifi".data, "electric".data], "Bills & Utilities".data, "Hóa đơn".data⟩,
   ⟨["shop".data, "shopping".data, "mall".data, "mua đồ".data, "quần áo".data,
     "shopee".data, "lazada".data], "Shopping".data, "Mua sắm".data⟩,
   ⟨["doctor".data, "hospital".data, "medicine".data, "pharmacy".data, "thuốc".data,
     "khám".data], "Health".data, "Sức khỏe".data⟩,
   ⟨["movie".data, "cinema".data, "game".data, "netflix".data, "spotify".data,
     "du lịch".data, "travel".data, "hotel".data], "Entertainment".data,
    "Giải trí".data⟩,
   ⟨["tuition".data, "học".data, "course".data, "class".data, "book".data,
     "sách".data], "Education".data, "Giáo dục".data⟩]

/-- detectCategory of the source: the first rule whose pattern matches the
raw text wins, with a type-dependent bilingual default. -/
def detectCategory (text : Str) (language : AppLanguage) (t : TransactionType) : Str :=
  let lower := lowerStr text
  match categoryRules.find? (fun r => r.keywords.any (fun k => containsSub k lower)) with
  | some r => if language = AppLanguage.vi then r.vi else r.en
  | none =>
    if t = TransactionType.income then
      if language = AppLanguage.vi then "Thu khác".data else "Other Income".data
    else
      if language = AppLanguage.vi then "Chi khác".data else "Other Expense".data

/-!  The date normalizer.  The wall clock is modelled as the calendar date
it shows (a UTC clock, so that the Date accessors and toISOString agree on
the calendar day). -/

/-- A Gregorian calendar date. -/
structure CivilDate where
  year : Int
  month : Int
  day : Int
deriving DecidableEq, Repr

/-- Day count since 1970-01-01 of a calendar date (standard civil-calendar
conversion, floor divisions). -/
def daysFromCivil (dt : CivilDate) : Int :=
  let y := if dt.month ≤ 2 then dt.year - 1 else dt.year
  let era := Int.fdiv y 400
  let yoe := y - era * 400
  let mp := Int.emod (dt.month + 9) 12
  let doy := Int.fdiv (153 * mp + 2) 5 + dt.day - 1
  let doe := yoe * 365 + Int.fdiv yoe 4 - Int.fdiv yoe 100 + doy
  era * 146097 + doe - 719468

/-- Calendar date of a day count since 1970-01-01 (inverse conversion). -/
def civilFromDays (z0 : Int) : CivilDate :=
  let z := z0 + 719468
  let era := Int.fdiv z 146097
  let doe := z - era * 146097
  let yoe := Int.fdiv (doe - Int.fdiv doe 1460 + Int.fdiv doe 36524 - Int.fdiv doe 146096) 365
  let y := yoe + era * 400
  let doy := doe - (365 * yoe + Int.fdiv yoe 4 - Int.fdiv yoe 100)
  let mp := Int.fdiv (5 * doy + 2) 153
  let d := doy - Int.fdiv (153 * mp + 2) 5 + 1
  let m := if mp < 10 then mp + 3 else mp - 9
  ⟨if m ≤ 2 then y + 1 else y, m, d⟩

/-- The calendar date one day before the given one: the setDate(getDate()-1)
step of the yesterday branch. -/
def prevDay (dt : CivilDate) : CivilDate := civilFromDays (daysFromCivil dt - 1)

/-- Decimal digits of a natural number padded with leading zeros. -/
def padNum (w : Nat) (n : Int) : Str :=
  let s := Nat.toDigits 10 n.toNat
  List.replicate (w - s.length) '0' ++ s

/-- The first ten characters of toISOString: year-month-day. -/
def isoOfDate (dt : CivilDate) : Str :=
  padNum 4 dt.year ++ '-' :: (padNum 2 dt.month ++ '-' :: padNum 2 dt.day)

/-- Position-wise matcher for the embedded ISO-date pattern of normalizeDate
(four digits, dash, two digits, dash, two digits, no boundaries): returns
the matched ten characters. -/
def matchISOAt : Str → Option Str
  | a :: b :: c :: d :: e :: f :: g :: h :: i :: j :: _ =>
    if isDigitCh a && isDigitCh b && isDigitCh c && isDigitCh d && e = '-' &&
       isDigitCh f && isDigitCh g && h = '-' && isDigitCh i && isDigitCh j then
      some [a, b, c, d, e, f, g, h, i, j]
    else none
  | _ => none

/-- First embedded ISO date of the text. -/
def findISO (text : Str) : Option Str := scanFirst matchISOAt text

/-- Takes exactly n leading digits when available. -/
def takeNDigits (n : Nat) (s : Str) : Option (Str × Str) :=
  match n, s with
  | 0, s => some ([], s)
  | n + 1, c :: cs =>
    if isDigitCh c then
      match takeNDigits n cs with
      | some (d, r) => some (c :: d, r)
      | none => none
    else none
  | _ + 1, [] => none

/-- The optional slash-year group of the numeric-date pattern: a slash and
two to four digits, taken greedily. -/
def matchSlashYear (s : Str) : Option Str :=
  match s with
  | '/' :: t =>
    match takeNDigits 4 t with
    | some (y, _) => some y
    | none =>
      match takeNDigits 3 t with
      | some (y, _) => some y
      | none =>
        match takeNDigits 2 t with
        | some (y, _) => some y
        | none => none
  | _ => none

/-- Position-wise matcher for the numeric-date pattern of normalizeDate
(one or two digits, slash, one or two digits, optional slash-year, no
boundaries): returns the day, month and optional year digit strings, longer
digit runs preferred. -/
def matchSlashAt (s : Str) : Option (Str × Str × Option Str) :=
  let afterDay := fun (day : Str) (r : Str) =>
    match r with
    | '/' :: r2 =>
      let month :=
        match takeNDigits 2 r2 with
        | some (m, r3) => some (m, r3)
        | none => takeNDigits 1 r2
      match month with
      | some (m, r3) => some (day, m, matchSlashYear r3)
      | none => none
    | _ => none
  match takeNDigits 2 s with
  | some (d, r) =>
    match afterDay d r with
    | some x => some x
    | none =>
      match takeNDigits 1 s with
      | some (d1, r1) => afterDay d1 r1
      | none => none
  | none =>
    match takeNDigits 1 s with
    | some (d1, r1) => afterDay d1 r1
    | none => none

/-- First embedded numeric date of the text. -/
def findSlash (text : Str) : Option (Str × Str × Option Str) := scanFirst matchSlashAt text

/-- The month-overflow normalization and the 0-99 year rule of the Date
constructor, followed by day-offset arithmetic: new Date(year, month-1,
day). -/
def jsDateYMD (y m d : Int) : CivilDate :=
  let y1 := if 0 ≤ y && y ≤ 99 then y + 1900 else y
  let tm := y1 * 12 + (m - 1)
  let yy := Int.fdiv tm 12
  let mm := tm - 12 * yy + 1
  civilFromDays (daysFromCivil ⟨yy, mm, 1⟩ + (d - 1))

/-- normalizeDate of the source, over the modelled clock date. -/
def normalizeDate (today : CivilDate) (text : Str) : Str :=
  let lower := lowerStr text
  if containsSub "yesterday".data lower || containsSub "hôm qua".data lower ||
     containsSub "hom qua".data lower then
    isoOfDate (prevDay today)
  else if containsSub "today".data lower || containsSub "hôm nay".data lower ||
     containsSub "hom nay".data lower then
    isoOfDate today
  else
    match findISO text with
    | some d => d
    | none =>
      match findSlash text with
      | some (ds, ms, ys) =>
        let day : Int := natOfDigits ds
        let month : Int := natOfDigits ms
        let year : Int :=
          match ys with
          | some y2 => if y2.length = 2 then natOfDigits ('2' :: '0' :: y2) else natOfDigits y2
          | none => today.year
        isoOfDate (jsDateYMD year month day)
      | none => isoOfDate today

/-!  The orchestrator. -/

/-- The result record of the source (Transaction without id, accountId and
createdAt). -/
structure ParsedTransaction where
  type : TransactionType
  amount : JNum
  currency : Currency
  category : Str
  merchant : Option Str
  date : Str
  note : Str
  inputMode : InputMode
  rawInput : Str
deriving DecidableEq, Repr

/-- The language-appropriate no-valid-amount message. -/
def noAmountMsg (language : AppLanguage) : Str :=
  if language = AppLanguage.vi then "Không tìm thấy số tiền hợp lệ.".data
  else "Could not find a valid amount.".data

/-- parseTransactionInput of the source; the extra first argument is the
modelled clock date. -/
def parseTransactionInput (today : CivilDate) (rawInput : Str) (inputMode : InputMode)
    (language : AppLanguage) (fallbackCurrency : Currency)
    (preferredType : Option TransactionType) : Except Str ParsedTransaction :=
  let currency := detectCurrency rawInput fallbackCurrency
  match parseAmount rawInput currency with
  | none => Except.error (noAmountMsg language)
  | some amount =>
    if amount.mant = 0 then Except.error (noAmountMsg language)
    else
      let t := detectType rawInput preferredType
      let category := detectCategory rawInput language t
      Except.ok
        { type := t
          amount := amount
          currency := currency
          category := category
          merchant := none
          date := normalizeDate today rawInput
          note := rawInput
          inputMode := inputMode
          rawInput := rawInput }

/-!  Result accessors used by the specification statements. -/

/-- The amount of a successful parse. -/
def resAmount : Except Str ParsedTransaction → Option JNum
  | Except.ok t => some t.amount
  | Except.error _ => none

/-- The amount of a successful parse, as a rational value. -/
def resAmountVal (r : Except Str ParsedTransaction) : Option ℚ :=
  (resAmount r).map JNum.val

/-- The currency of a successful parse. -/
def resCurrency : Except Str ParsedTransaction → Option Currency
  | Except.ok t => some t.currency
  | Except.error _ => none

/-- The type of a successful parse. -/
def resType : Except Str ParsedTransaction → Option TransactionType
  | Except.ok t => some t.type
  | Except.error _ => none

/-- The category of a successful parse. -/
def resCategory : Except Str ParsedTransaction → Option Str
  | Except.ok t => some t.category
  | Except.error _ => none

/-!  Elementary facts about the character classes. -/

lemma sep_not_digit {c : Char} (h : isSepCh c = true) : isDigitCh c = false := by
  rw [isSepCh, decide_eq_true_eq] at h
  fin_cases h <;> decide

lemma digit_not_sep {c : Char} (h : isDigitCh c = true) : isSepCh c = false := by
  rw [isDigitCh, decide_eq_true_eq] at h
  fin_cases h <;> decide

lemma digit_not_space {c : Char} (h : isDigitCh c = true) : jsIsSpace c = false := by
  rw [isDigitCh, decide_eq_true_eq] at h
  fin_cases h <;> decide

lemma sep_not_space {c : Char} (h : isSepCh c = true) : jsIsSpace c = false := by
  rw [isSepCh, decide_eq_true_eq] at h
  fin_cases h <;> decide

lemma digit_not_dot {c : Char} (h : isDigitCh c = true) : ¬(c = '.') := by
  rw [isDigitCh, decide_eq_true_eq] at h
  fin_cases h <;> decide

lemma jsToLower_digit {c : Char} (h : isDigitCh (jsToLower c) = true) :
    isDigitCh c = true := by
  rw [jsToLower] at h
  cases hf : lowerTable.find? (fun p => p.1 = c) with
  | none => rw [hf] at h; exact h
  | some p =>
    rw [hf] at h
    have hp : p ∈ lowerTable := List.mem_of_find?_eq_some hf
    fin_cases hp <;> simp_all <;> exact absurd h (by decide)

/-!  Runs, literals and the digitless texts. -/

lemma takeRun_head_neg {p : Char → Bool} {c : Char} {cs : Str} (h : p c = false) :
    takeRun p (c :: cs) = ([], c :: cs) := by
  simp [takeRun, h]

lemma takeDigitRun_digitless {s : Str} (h : ∀ c ∈ s, isDigitCh c = false) :
    takeDigitRun s = ([], s) := by
  cases s with
  | nil => rfl
  | cons c cs => exact takeRun_head_neg (h c (List.mem_cons_self c cs))

lemma stripLit_mem {pat s r : Str} (h : stripLit pat s = some r) : ∀ c ∈ r, c ∈ s := by
  induction pat generalizing s with
  | nil =>
    rw [stripLit] at h
    cases h
    exact fun c hc => hc
  | cons p ps ih =>
    cases s with
    | nil => exact absurd h (by simp [stripLit])
    | cons c cs =>
      rw [stripLit] at h
      by_cases hc : c = p
      · rw [if_pos hc] at h
        exact fun x hx => List.mem_cons_of_mem c (ih h x hx)
      · rw [if_neg hc] at h
        exact absurd h (by simp)

lemma takeRun_snd_mem {p : Char → Bool} {s : Str} : ∀ c ∈ (takeRun p s).2, c ∈ s := by
  induction s with
  | nil => simp [takeRun]
  | cons c cs ih =>
    by_cases hp : p c
    · intro x hx
      simp only [takeRun, hp, if_true] at hx
      exact List.mem_cons_of_mem c (ih x hx)
    · intro x hx
      rw [takeRun_head_neg (by simpa using hp)] at hx
      exact hx

lemma matchR1_digitless {pw : Bool} {s : Str} (h : ∀ c ∈ s, isDigitCh c = false) :
    matchR1 pw s = none := by
  rw [matchR1]
  cases pw with
  | true => rfl
  | false => simp [takeDigitRun_digitless h]

lemma matchR2_digitless {pw : Bool} {s : Str} (h : ∀ c ∈ s, isDigitCh c = false) :
    matchR2 pw s = none := by
  rw [matchR2]
  cases pw with
  | true => rfl
  | false => simp [takeDigitRun_digitless h]

lemma matchR3_digitless {pw : Bool} {s : Str} (h : ∀ c ∈ s, isDigitCh c = false) :
    matchR3 pw s = none := by
  rw [matchR3]
  cases pw with
  | true => rfl
  | false =>
    have key : ∀ r1 : Str, (∀ c ∈ r1, isDigitCh c = false) →
        (match (takeRun jsIsSpace r1 : Str × Str) with
          | (w, r2) => w) = (takeRun jsIsSpace r1).1 := fun _ _ => rfl
    cases h4 : stripLit "ngày".data s with
    | some r =>
      have hr : ∀ c ∈ r, isDigitCh c = false := fun c hc => h c (stripLit_mem h4 c hc)
      have hw : ∀ c ∈ (takeRun jsIsSpace r).2, isDigitCh c = false :=
        fun c hc => hr c (takeRun_snd_mem c hc)
      simp [h4, takeDigitRun_digitless hw]
    | none =>
      cases h5 : stripLit "day".data s with
      | some r =>
        have hr : ∀ c ∈ r, isDigitCh c = false := fun c hc => h c (stripLit_mem h5 c hc)
        have hw : ∀ c ∈ (takeRun jsIsSpace r).2, isDigitCh c = false :=
          fun c hc => hr c (takeRun_snd_mem c hc)
        simp [h4, h5, takeDigitRun_digitless hw]
      | none => simp [h4, h5]

lemma scrubWithFuel_digitless {m : Bool → Str → Option Str}
    (hm : ∀ pw t, (∀ c ∈ t, isDigitCh c = false) → m pw t = none) :
    ∀ (fuel : Nat) (pw : Bool) (s : Str), (∀ c ∈ s, isDigitCh c = false) →
      scrubWithFuel m fuel pw s = s := by
  intro fuel
  induction fuel with
  | zero => intro pw s _; rfl
  | succ n ih =>
    intro pw s hs
    cases s with
    | nil => rfl
    | cons c cs =>
      rw [scrubWithFuel, hm pw (c :: cs) hs]
      rw [ih (isWordChar c) cs (fun x hx => hs x (List.mem_cons_of_mem c hx))]

lemma scrubDates_digitless {s : Str} (h : ∀ c ∈ s, isDigitCh c = false) :
    scrubDates s = s := by
  rw [scrubDates]
  rw [scrubWithFuel_digitless (fun pw t ht => matchR1_digitless ht) _ _ _ h]
  rw [scrubWithFuel_digitless (fun pw t ht => matchR2_digitless ht) _ _ _ h]
  rw [scrubWithFuel_digitless (fun pw t ht => matchR3_digitless ht) _ _ _ h]

lemma matchToken_digitless {s : Str} (h : ∀ c ∈ s, isDigitCh c = false) :
    matchToken s = none := by
  rw [matchToken, tokenAlt1, tokenAlt2]
  simp [takeDigitRun_digitless h]

lemma scanTokens_digitless : ∀ (fuel : Nat) (s : Str),
    (∀ c ∈ s, isDigitCh c = false) → scanTokens fuel s = [] := by
  intro fuel
  induction fuel with
  | zero => intro s _; rfl
  | succ n ih =>
    intro s hs
    cases s with
    | nil => rfl
    | cons c cs =>
      rw [scanTokens, matchToken_digitless hs]
      exact ih cs (fun x hx => hs x (List.mem_cons_of_mem c hx))

lemma lowerStr_digitless {s : Str} (h : ∀ c ∈ s, isDigitCh c = false) :
    ∀ c ∈ lowerStr s, isDigitCh c = false := by
  intro c hc
  rw [lowerStr, List.mem_map] at hc
  obtain ⟨a, ha, rfl⟩ := hc
  cases hd : isDigitCh (jsToLower a) with
  | false => rfl
  | true => exact absurd (jsToLower_digit hd) (by simp [h a ha])

lemma amountCandidates_digitless {raw : Str} (h : ∀ c ∈ raw, isDigitCh c = false) :
    amountCandidates raw = [] := by
  rw [amountCandidates]
  have h1 := lowerStr_digitless h
  rw [scrubDates_digitless h1]
  rw [scanTokens_digitless _ _ h1]
  rfl

/-!  The valuation of parsed numbers and the selection fold. -/

lemma val_pos_iff (x : JNum) : 0 < x.val ↔ 0 < x.mant := by
  rw [JNum.val]
  rw [div_pos_iff]
  have h10 : (0 : ℚ) < 10 ^ x.exp := by positivity
  constructor
  · rintro (⟨hm, _⟩ | ⟨_, hd⟩)
    · exact_mod_cast hm
    · exact absurd hd (not_lt.mpr h10.le)
  · intro hm
    exact Or.inl ⟨by exact_mod_cast hm, h10⟩

lemma jlt_iff (a b : JNum) : jlt a b = true ↔ a.val < b.val := by
  rw [jlt, decide_eq_true_eq, JNum.val, JNum.val]
  rw [div_lt_div_iff (by positivity) (by positivity)]
  constructor
  · intro h; exact_mod_cast h
  · intro h; exact_mod_cast h

lemma val_scale1000 (x : JNum) : (JNum.mk (x.mant * 1000) x.exp).val = x.val * 1000 := by
  rw [JNum.val, JNum.val]
  push_cast
  ring

lemma val_k1000 : (JNum.mk 1000 0).val = 1000 := by
  rw [JNum.val]
  norm_num

lemma selStep_le (b : JNum) (c : JNum × Bool) : b.val ≤ (selStep b c).val := by
  rw [selStep]
  by_cases h : jlt b c.1 = true
  · rw [if_pos h]
    exact le_of_lt ((jlt_iff b c.1).mp h)
  · rw [if_neg h]

lemma selStep_ub (b : JNum) (c : JNum × Bool) : c.1.val ≤ (selStep b c).val := by
  rw [selStep]
  by_cases h : jlt b c.1 = true
  · rw [if_pos h]
  · rw [if_neg h]
    have := (jlt_iff b c.1).not.mp h
    exact not_lt.mp this

lemma foldl_sel_le : ∀ (l : List (JNum × Bool)) (b : JNum),
    b.val ≤ (l.foldl selStep b).val := by
  intro l
  induction l with
  | nil => intro b; exact le_refl _
  | cons h t ih =>
    intro b
    rw [List.foldl_cons]
    exact le_trans (selStep_le b h) (ih (selStep b h))

lemma foldl_sel_ub : ∀ (l : List (JNum × Bool)) (b : JNum), ∀ c ∈ l,
    c.1.val ≤ (l.foldl selStep b).val := by
  intro l
  induction l with
  | nil => intro b c hc; exact absurd hc (List.not_mem_nil c)
  | cons h t ih =>
    intro b c hc
    rw [List.foldl_cons]
    rcases List.mem_cons.mp hc with rfl | hct
    · exact le_trans (selStep_ub b c) (foldl_sel_le t (selStep b c))
    · exact ih (selStep b h) c hct

lemma foldl_sel_mem : ∀ (l : List (JNum × Bool)) (b : JNum),
    l.foldl selStep b = b ∨ ∃ c ∈ l, l.foldl selStep b = c.1 := by
  intro l
  induction l with
  | nil => intro b; exact Or.inl rfl
  | cons h t ih =>
    intro b
    rw [List.foldl_cons]
    rcases ih (selStep b h) with heq | ⟨c, hc, heq⟩
    · rw [heq, selStep]
      by_cases hj : jlt b h.1 = true
      · rw [if_pos hj]
        exact Or.inr ⟨h, List.mem_cons_self h t, rfl⟩
      · rw [if_neg hj]
        exact Or.inl rfl
    · exact Or.inr ⟨c, List.mem_cons_of_mem h hc, heq⟩

lemma selectPool_subset {cands : List (JNum × Bool)} :
    ∀ c ∈ selectPool cands, c ∈ cands := by
  intro c hc
  rw [selectPool] at hc
  by_cases h : 0 < (cands.filter (fun c => c.2)).length
  · rw [if_pos h] at hc
    exact List.mem_of_mem_filter hc
  · rwa [if_neg h] at hc

lemma selectedValue_mem {cands : List (JNum × Bool)}
    (hne : selectPool cands ≠ [])
    (hpos : ∀ c ∈ cands, 0 < c.1.mant) :
    (∃ c ∈ selectPool cands, selectedValue cands = c.1) ∧
      0 < (selectedValue cands).mant := by
  rcases foldl_sel_mem (selectPool cands) ⟨0, 0⟩ with heq | ⟨c, hc, heq⟩
  · exfalso
    obtain ⟨c0, hc0⟩ := List.exists_mem_of_ne_nil _ hne
    have h1 : c0.1.val ≤ (selectedValue cands).val := foldl_sel_ub _ _ c0 hc0
    have h2 : (selectedValue cands).val = 0 := by
      show ((selectPool cands).foldl selStep ⟨0, 0⟩).val = 0
      rw [heq, JNum.val]
      norm_num
    have h3 : 0 < c0.1.val :=
      (val_pos_iff c0.1).mpr (hpos c0 (selectPool_subset c0 hc0))
    rw [h2] at h1
    exact absurd h1 (not_le.mpr h3)
  · refine ⟨⟨c, hc, heq⟩, ?_⟩
    show (selectedValue cands).mant > 0
    rw [show selectedValue cands = c.1 from heq]
    exact hpos c (selectPool_subset c hc)

/-!  Positivity of parsed amounts. -/

lemma unitMultiplier_pos (u : Option Str) : 0 < unitMultiplier u := by
  cases u with
  | none => simp [unitMultiplier]
  | some v =>
    simp only [unitMultiplier]
    split
    · norm_num
    · split <;> norm_num

lemma cands_pos {raw : Str} : ∀ p ∈ amountCandidates raw, 0 < p.1.mant := by
  intro p hp
  rw [amountCandidates, List.mem_filterMap] at hp
  obtain ⟨t, _, hf⟩ := hp
  cases hpn : parseNumberToken t.1 with
  | none => rw [hpn] at hf; simp at hf
  | some v =>
    rw [hpn] at hf
    dsimp only at hf
    by_cases hz : v.mant = 0
    · rw [if_pos hz] at hf
      exact absurd hf (by simp)
    · rw [if_neg hz] at hf
      have := Option.some_injective _ hf
      rw [← this]
      exact Nat.mul_pos (Nat.pos_of_ne_zero hz) (unitMultiplier_pos t.2)

lemma selectPool_ne_nil {cands : List (JNum × Bool)} (h : cands ≠ []) :
    selectPool cands ≠ [] := by
  rw [selectPool]
  by_cases hw : 0 < (cands.filter (fun c => c.2)).length
  · rw [if_pos hw]
    exact List.ne_nil_of_length_pos hw
  · rwa [if_neg hw]

lemma selectedValue_pos {raw : Str} (h : amountCandidates raw ≠ []) :
    0 < (selectedValue (amountCandidates raw)).mant :=
  (selectedValue_mem (selectPool_ne_nil h) cands_pos).2

lemma parseAmount_pos {raw : Str} {cur : Currency} {v : JNum}
    (h : parseAmount raw cur = some v) : 0 < v.mant := by
  rw [parseAmount] at h
  dsimp only at h
  by_cases hc : amountCandidates raw = []
  · rw [if_pos hc] at h
    exact absurd h (by simp)
  · rw [if_neg hc] at h
    have hpos := selectedValue_pos hc
    split at h
    · have := Option.some_injective _ h
      rw [← this]
      exact Nat.mul_pos hpos (by norm_num)
    · have := Option.some_injective _ h
      rw [← this]
      exact hpos

lemma parseAmount_none_iff {raw : Str} {cur : Currency} :
    parseAmount raw cur = none ↔ amountCandidates raw = [] := by
  rw [parseAmount]
  dsimp only
  by_cases hc : amountCandidates raw = []
  · rw [if_pos hc]
    simp [hc]
  · rw [if_neg hc]
    split <;> simp [hc]

deriving instance DecidableEq for Except

/-!  The claims. -/

/-- Claim C1: for every input string and every argument combination, the
orchestrator either fails with the no-valid-amount error or returns a record
whose amount is strictly positive; it never returns a zero or negative
amount. -/
theorem claim_C1 (today : CivilDate) (raw : Str) (mode : InputMode)
    (lang : AppLanguage) (fb : Currency) (pref : Option TransactionType) :
    parseTransactionInput today raw mode lang fb pref = Except.error (noAmountMsg lang) ∨
    ∃ t, parseTransactionInput today raw mode lang fb pref = Except.ok t ∧ 0 < t.amount.val := by
  rw [parseTransactionInput]
  dsimp only
  cases hpa : parseAmount raw (detectCurrency raw fb) with
  | none => exact Or.inl rfl
  | some v =>
    have hv := parseAmount_pos hpa
    dsimp only
    rw [if_neg (Nat.pos_iff_ne_zero.mp hv)]
    exact Or.inr ⟨_, rfl, (val_pos_iff v).mpr hv⟩

/-- Claim C2, counterexample: the input 1/2 contains digits (numeric tokens
1 and 2), yet the orchestrator raises the no-valid-amount failure, because
the date scrub removes the day-slash-month shape before the amount scan. -/
theorem claim_C2_cex :
    parseTransactionInput ⟨2024, 5, 15⟩ "1/2".data InputMode.text AppLanguage.en
        Currency.USD none = Except.error (noAmountMsg AppLanguage.en) ∧
    "1/2".data.any (fun c => isDigitCh c) = true := by
  constructor
  · decide
  · decide

/-- Claim C2, amended: the orchestrator raises the no-valid-amount failure
exactly when the date-scrubbed text yields no truthy numeric candidate; in
particular every input containing no digit fails.  (Inputs whose only
numeric tokens are date-shaped are scrubbed and therefore also fail, which
is what the counterexample exhibits.) -/
theorem claim_C2 (today : CivilDate) (raw : Str) (mode : InputMode)
    (lang : AppLanguage) (fb : Currency) (pref : Option TransactionType) :
    (parseTransactionInput today raw mode lang fb pref = Except.error (noAmountMsg lang) ↔
      amountCandidates raw = []) ∧
    ((∀ c ∈ raw, isDigitCh c = false) →
      parseTransactionInput today raw mode lang fb pref = Except.error (noAmountMsg lang)) := by
  have main : parseTransactionInput today raw mode lang fb pref =
      Except.error (noAmountMsg lang) ↔ amountCandidates raw = [] := by
    rw [parseTransactionInput]
    dsimp only
    cases hpa : parseAmount raw (detectCurrency raw fb) with
    | none =>
      simp [parseAmount_none_iff.mp hpa]
    | some v =>
      dsimp only
      rw [if_neg (Nat.pos_iff_ne_zero.mp (parseAmount_pos hpa))]
      constructor
      · intro h
        exact absurd h (by simp)
      · intro h
        have hn := (@parseAmount_none_iff raw (detectCurrency raw fb)).mpr h
        rw [hpa] at hn
        exact absurd hn (by simp)
  refine ⟨main, fun hd => main.mpr (amountCandidates_digitless hd)⟩

/-- Witness for the amended claim C2 at concrete inputs: a digitless input
fails, and from the failure on 1/2 the candidate list of 1/2 is empty. -/
theorem claim_C2_witness :
    parseTransactionInput ⟨2024, 5, 15⟩ "hello".data InputMode.text AppLanguage.vi
        Currency.VND none = Except.error (noAmountMsg AppLanguage.vi) ∧
    amountCandidates "1/2".data = [] := by
  constructor
  · exact (claim_C2 ⟨2024, 5, 15⟩ "hello".data InputMode.text AppLanguage.vi
      Currency.VND none).2 (by decide)
  · exact (claim_C2 ⟨2024, 5, 15⟩ "1/2".data InputMode.text AppLanguage.en
      Currency.USD none).1.mp (by decide)

set_option maxHeartbeats 4000000 in
/-- Claim C3: when some candidate carries an explicit unit or currency
marker, the reduce selects the maximum value among the marker-bearing
candidates (bare numbers are ignored); with no marker-bearing candidate the
maximum over all candidates is selected; and the sentence about a table for
4 people with a 250k total parses to the amount 250000, not 4. -/
theorem claim_C3 (raw : Str) :
    ((amountCandidates raw).filter (fun c => c.2) ≠ [] →
      (∃ c ∈ (amountCandidates raw).filter (fun c => c.2),
          selectedValue (amountCandidates raw) = c.1) ∧
      ∀ c ∈ (amountCandidates raw).filter (fun c => c.2),
          c.1.val ≤ (selectedValue (amountCandidates raw)).val) ∧
    ((amountCandidates raw).filter (fun c => c.2) = [] → amountCandidates raw ≠ [] →
      (∃ c ∈ amountCandidates raw, selectedValue (amountCandidates raw) = c.1) ∧
      ∀ c ∈ amountCandidates raw,
          c.1.val ≤ (selectedValue (amountCandidates raw)).val) ∧
    resAmountVal (parseTransactionInput ⟨2024, 5, 15⟩
      "table for 4 people, 250k total".data InputMode.text AppLanguage.en
      Currency.USD none) = some 250000 := by
  refine ⟨?_, ?_, ?_⟩
  · intro h
    have hpool : selectPool (amountCandidates raw) =
        (amountCandidates raw).filter (fun c => c.2) := by
      rw [selectPool]
      exact if_pos (List.length_pos.mpr h)
    have hmem := @selectedValue_mem (amountCandidates raw)
      (by rw [hpool]; exact h) cands_pos
    obtain ⟨⟨c, hc, hceq⟩, _⟩ := hmem
    rw [hpool] at hc
    refine ⟨⟨c, hc, hceq⟩, ?_⟩
    intro d hd
    rw [← hpool] at hd
    exact foldl_sel_ub (selectPool (amountCandidates raw)) ⟨0, 0⟩ d hd
  · intro h hne
    have hpool : selectPool (amountCandidates raw) = amountCandidates raw := by
      rw [selectPool]
      exact if_neg (by rw [h]; simp)
    have hmem := @selectedValue_mem (amountCandidates raw)
      (by rw [hpool]; exact hne) cands_pos
    obtain ⟨⟨c, hc, hceq⟩, _⟩ := hmem
    rw [hpool] at hc
    refine ⟨⟨c, hc, hceq⟩, ?_⟩
    intro d hd
    rw [← hpool] at hd
    exact foldl_sel_ub (selectPool (amountCandidates raw)) ⟨0, 0⟩ d hd
  · have h : resAmount (parseTransactionInput ⟨2024, 5, 15⟩
        "table for 4 people, 250k total".data InputMode.text AppLanguage.en
        Currency.USD none) = some ⟨250000, 0⟩ := by decide
    rw [resAmountVal, h]
    show some (JNum.val ⟨250000, 0⟩) = some 250000
    rw [JNum.val]
    norm_num

set_option maxHeartbeats 4000000 in
/-- Witness for claim C3: the 250k sentence has a marker-bearing candidate,
and the selected value is one of the marker-bearing candidates. -/
theorem claim_C3_witness :
    (amountCandidates "table for 4 people, 250k total".data).filter (fun c => c.2) ≠ [] ∧
    ∃ c ∈ (amountCandidates "table for 4 people, 250k total".data).filter (fun c => c.2),
      selectedValue (amountCandidates "table for 4 people, 250k total".data) = c.1 :=
  ⟨by decide, ((claim_C3 "table for 4 people, 250k total".data).1 (by decide)).1⟩

/-- Claim C4: when the detected currency is VND, the selected value is below
1000 and the lowercased text contains one of the fixed cue keywords, the
final amount is the selected value multiplied by 1000; when any of the three
conditions fails, the selected value is returned unchanged. -/
theorem claim_C4 (raw : Str) (cur : Currency) (h : amountCandidates raw ≠ []) :
    (cur = Currency.VND →
      (selectedValue (amountCandidates raw)).val < 1000 →
      (containsSub "ăn".data (lowerStr raw) || containsSub "cafe".data (lowerStr raw) ||
       containsSub "grab".data (lowerStr raw) || containsSub "com".data (lowerStr raw) ||
       containsSub "trà".data (lowerStr raw) || containsSub "tea".data (lowerStr raw) ||
       containsSub "mua".data (lowerStr raw)) = true →
      (parseAmount raw cur).map JNum.val =
        some ((selectedValue (amountCandidates raw)).val * 1000)) ∧
    (¬(cur = Currency.VND ∧
       (selectedValue (amountCandidates raw)).val < 1000 ∧
       (containsSub "ăn".data (lowerStr raw) || containsSub "cafe".data (lowerStr raw) ||
        containsSub "grab".data (lowerStr raw) || containsSub "com".data (lowerStr raw) ||
        containsSub "trà".data (lowerStr raw) || containsSub "tea".data (lowerStr raw) ||
        containsSub "mua".data (lowerStr raw)) = true) →
      (parseAmount raw cur).map JNum.val =
        some (selectedValue (amountCandidates raw)).val) := by
  have hcue : heurCue (lowerStr raw) =
      (containsSub "ăn".data (lowerStr raw) || containsSub "cafe".data (lowerStr raw) ||
       containsSub "grab".data (lowerStr raw) || containsSub "com".data (lowerStr raw) ||
       containsSub "trà".data (lowerStr raw) || containsSub "tea".data (lowerStr raw) ||
       containsSub "mua".data (lowerStr raw)) := rfl
  constructor
  · intro h1 h2 h3
    have hj : jlt (selectedValue (amountCandidates raw)) ⟨1000, 0⟩ = true :=
      (jlt_iff _ _).mpr (by rw [val_k1000]; exact h2)
    rw [parseAmount]
    dsimp only
    rw [if_neg h]
    rw [if_pos (by simp [h1, hj, hcue, h3])]
    show some (JNum.val ⟨(selectedValue (amountCandidates raw)).mant * 1000,
      (selectedValue (amountCandidates raw)).exp⟩) =
      some ((selectedValue (amountCandidates raw)).val * 1000)
    rw [val_scale1000]
  · intro hneg
    rw [parseAmount]
    dsimp only
    rw [if_neg h]
    have hcond : ¬((decide (cur = Currency.VND) &&
        jlt (selectedValue (amountCandidates raw)) ⟨1000, 0⟩ &&
        heurCue (lowerStr raw)) = true) := by
      intro hc
      rw [Bool.and_eq_true, Bool.and_eq_true] at hc
      obtain ⟨⟨hd, hj⟩, hcu⟩ := hc
      refine hneg ⟨of_decide_eq_true hd, ?_, by rw [← hcue]; exact hcu⟩
      have := (jlt_iff _ _).mp hj
      rwa [val_k1000] at this
    rw [if_neg hcond]
    rfl

set_option maxHeartbeats 4000000 in
/-- Witness for claim C4: cafe 45 with VND selects 45, which is below 1000
and accompanied by the cafe cue, so the final amount is 45 times 1000. -/
theorem claim_C4_witness :
    (parseAmount "cafe 45".data Currency.VND).map JNum.val =
      some ((selectedValue (amountCandidates "cafe 45".data)).val * 1000) := by
  have hsel : selectedValue (amountCandidates "cafe 45".data) = ⟨45, 0⟩ := by decide
  refine (claim_C4 "cafe 45".data Currency.VND (by decide)).1 rfl ?_ (by decide)
  rw [hsel, JNum.val]
  norm_num

/-!  Claim C5: the grouped-thousands shape.  The shape described by the
specification is built explicitly: one to three leading digits followed by a
nonempty list of segments, each a separator and a three-digit group. -/

/-- The text of a segment list: each segment contributes its separator and
its digits. -/
def segsText (gs : List (Char × Str)) : Str := (gs.map (fun p => p.1 :: p.2)).join

/-- The digits of a segment list with the separators dropped. -/
def segsDigits (gs : List (Char × Str)) : Str := (gs.map (fun p => p.2)).join

lemma takeRun_append {p : Char → Bool} {d r : Str} (hd : ∀ c ∈ d, p c = true)
    (hr : ∀ c cs, r = c :: cs → p c = false) : takeRun p (d ++ r) = (d, r) := by
  induction d with
  | nil =>
    simp only [List.nil_append]
    cases r with
    | nil => rfl
    | cons c cs => exact takeRun_head_neg (hr c cs rfl)
  | cons a d' ih =>
    have ha : p a = true := hd a (List.mem_cons_self a d')
    simp only [List.cons_append, takeRun, ha, if_true, List.append_eq]
    rw [ih (fun c hc => hd c (List.mem_cons_of_mem a hc))]

lemma segsText_cons (q : Char × Str) (rest : List (Char × Str)) :
    segsText (q :: rest) = q.1 :: (q.2 ++ segsText rest) := by
  simp [segsText]

lemma segs_length_le : ∀ gs : List (Char × Str), gs.length ≤ (segsText gs).length := by
  intro gs
  induction gs with
  | nil => simp [segsText]
  | cons q rest ih =>
    rw [segsText_cons]
    simp only [List.length_cons, List.length_append]
    omega

lemma groupedSegs_segs : ∀ (gs : List (Char × Str)) (fuel : Nat) (seen : Bool),
    gs ≠ [] → gs.length ≤ fuel →
    (∀ q ∈ gs, isSepCh q.1 = true ∧ q.2.length = 3 ∧ ∀ c ∈ q.2, isDigitCh c = true) →
    groupedSegs fuel seen (segsText gs) = true := by
  intro gs
  induction gs with
  | nil => intro fuel seen hne; exact absurd rfl hne
  | cons q rest ih =>
    intro fuel seen _ hfuel hseg
    obtain ⟨hq1, hq2, hq3⟩ := hseg q (List.mem_cons_self q rest)
    cases fuel with
    | zero => simp at hfuel
    | succ f =>
      rw [segsText_cons, groupedSegs]
      dsimp only
      rw [hq1, if_pos rfl]
      cases rest with
      | nil =>
        have hemp : segsText ([] : List (Char × Str)) = [] := rfl
        rw [hemp, List.append_nil]
        have hrun : takeDigitRun q.2 = (q.2, []) := by
          rw [takeDigitRun]
          have := @takeRun_append isDigitCh q.2 [] hq3 (fun c cs hc => by simp at hc)
          rwa [List.append_nil] at this
        rw [hrun]
        simp [hq2]
      | cons q2 rest2 =>
        have hsep2 : isSepCh q2.1 = true :=
          (hseg q2 (List.mem_cons_of_mem q (List.mem_cons_self q2 rest2))).1
        have hhead : segsText (q2 :: rest2) = q2.1 :: (q2.2 ++ segsText rest2) :=
          segsText_cons q2 rest2
        have hrun : takeDigitRun (q.2 ++ segsText (q2 :: rest2)) =
            (q.2, segsText (q2 :: rest2)) := by
          rw [takeDigitRun]
          refine takeRun_append hq3 (fun c cs hc => ?_)
          rw [hhead] at hc
          have hc1 : c = q2.1 := by injection hc with h1 _; exact h1.symm
          rw [hc1]
          exact sep_not_digit hsep2
        rw [hrun]
        dsimp only
        have hne2 : segsText (q2 :: rest2) ≠ [] := by
          rw [hhead]; exact List.cons_ne_nil _ _
        rw [if_neg hne2]
        rw [hq2]
        have hlen : (q2 :: rest2).length ≤ f := by
          simp only [List.length_cons] at hfuel ⊢
          omega
        rw [ih f true (List.cons_ne_nil _ _) hlen
          (fun p hp => hseg p (List.mem_cons_of_mem q hp))]
        simp

lemma segsText_mem {gs : List (Char × Str)}
    (hseg : ∀ q ∈ gs, isSepCh q.1 = true ∧ q.2.length = 3 ∧ ∀ c ∈ q.2, isDigitCh c = true) :
    ∀ c ∈ segsText gs, isSepCh c = true ∨ isDigitCh c = true := by
  induction gs with
  | nil => intro c hc; exact absurd hc (by simp [segsText])
  | cons q rest ih =>
    intro c hc
    rw [segsText_cons] at hc
    rcases List.mem_cons.mp hc with rfl | hc2
    · exact Or.inl (hseg q (List.mem_cons_self q rest)).1
    · rcases List.mem_append.mp hc2 with hcq | hcr
      · exact Or.inr ((hseg q (List.mem_cons_self q rest)).2.2 c hcq)
      · exact ih (fun p hp => hseg p (List.mem_cons_of_mem q hp)) c hcr

lemma segsText_filter_sep {gs : List (Char × Str)}
    (hseg : ∀ q ∈ gs, isSepCh q.1 = true ∧ q.2.length = 3 ∧ ∀ c ∈ q.2, isDigitCh c = true) :
    (segsText gs).filter (fun c => !isSepCh c) = segsDigits gs := by
  induction gs with
  | nil => rfl
  | cons q rest ih =>
    obtain ⟨hq1, _, hq3⟩ := hseg q (List.mem_cons_self q rest)
    rw [segsText_cons]
    have hdig : segsDigits (q :: rest) = q.2 ++ segsDigits rest := by simp [segsDigits]
    rw [hdig]
    rw [List.filter_cons]
    rw [hq1]
    simp only [Bool.not_true, if_neg (by simp : ¬(false = true))]
    rw [List.filter_append]
    rw [List.filter_eq_self.mpr (fun c hc => by rw [digit_not_sep (hq3 c hc)]; rfl)]
    rw [ih (fun p hp => hseg p (List.mem_cons_of_mem q hp))]

lemma splitOnDot_nodot {s : Str} (h : ∀ c ∈ s, ¬(c = '.')) : splitOnDot s = [s] := by
  induction s with
  | nil => rfl
  | cons c cs ih =>
    rw [splitOnDot]
    rw [if_neg (h c (List.mem_cons_self c cs))]
    rw [ih (fun x hx => h x (List.mem_cons_of_mem c hx))]

lemma jsNumber_digits {s : Str} (hne : s ≠ []) (hd : ∀ c ∈ s, isDigitCh c = true) :
    jsNumber s = some ⟨natOfDigits s, 0⟩ := by
  rw [jsNumber]
  rw [if_neg hne]
  rw [if_pos (List.all_eq_true.mpr (fun c hc => by rw [hd c hc]; rfl))]
  rw [splitOnDot_nodot (fun c hc => digit_not_dot (hd c hc))]

lemma segsDigits_mem {gs : List (Char × Str)}
    (hseg : ∀ q ∈ gs, isSepCh q.1 = true ∧ q.2.length = 3 ∧ ∀ c ∈ q.2, isDigitCh c = true) :
    ∀ c ∈ segsDigits gs, isDigitCh c = true := by
  induction gs with
  | nil => intro c hc; exact absurd hc (by simp [segsDigits])
  | cons q rest ih =>
    intro c hc
    have : segsDigits (q :: rest) = q.2 ++ segsDigits rest := by simp [segsDigits]
    rw [this] at hc
    rcases List.mem_append.mp hc with hcq | hcr
    · exact (hseg q (List.mem_cons_self q rest)).2.2 c hcq
    · exact ih (fun p hp => hseg p (List.mem_cons_of_mem q hp)) c hcr

set_option maxHeartbeats 4000000 in
/-- Claim C5: a numeric token of one to three leading digits followed by
repeating three-digit groups separated by dot or comma is parsed as a
grouped-thousands integer with the separators dropped, not as a decimal
(the exponent of the result is zero); in particular the rent sentence with
8.000.000 vnd parses to the amount 8000000. -/
theorem claim_C5 (lead : Str) (gs : List (Char × Str))
    (h1 : 1 ≤ lead.length) (h3 : lead.length ≤ 3)
    (hld : ∀ c ∈ lead, isDigitCh c = true)
    (hgs : gs ≠ [])
    (hseg : ∀ q ∈ gs, isSepCh q.1 = true ∧ q.2.length = 3 ∧
      ∀ c ∈ q.2, isDigitCh c = true) :
    parseNumberToken (lead ++ segsText gs) =
      some ⟨natOfDigits (lead ++ segsDigits gs), 0⟩ ∧
    resAmountVal (parseTransactionInput ⟨2024, 5, 15⟩ "rent 8.000.000 vnd".data
      InputMode.text AppLanguage.en Currency.USD none) = some 8000000 := by
  have hleadne : lead ≠ [] := List.ne_nil_of_length_pos (by omega)
  constructor
  · have hnospace : (lead ++ segsText gs).filter (fun c => !jsIsSpace c) =
        lead ++ segsText gs := by
      apply List.filter_eq_self.mpr
      intro c hc
      rcases List.mem_append.mp hc with hcl | hcs
      · rw [digit_not_space (hld c hcl)]; rfl
      · rcases segsText_mem hseg c hcs with hsep | hdig
        · rw [sep_not_space hsep]; rfl
        · rw [digit_not_space hdig]; rfl
    have hne : lead ++ segsText gs ≠ [] := by
      cases lead with
      | nil => exact absurd rfl hleadne
      | cons a l => exact List.cons_ne_nil _ _
    have hgf : groupedFull (lead ++ segsText gs) = true := by
      rw [groupedFull]
      have hrun : takeDigitRun (lead ++ segsText gs) = (lead, segsText gs) := by
        rw [takeDigitRun]
        refine takeRun_append hld (fun c cs hc => ?_)
        cases gs with
        | nil => exact absurd rfl hgs
        | cons q rest =>
          rw [segsText_cons] at hc
          have hc1 : c = q.1 := by injection hc with hh _; exact hh.symm
          rw [hc1]
          exact sep_not_digit (hseg q (List.mem_cons_self q rest)).1
      rw [hrun]
      have hsegs := groupedSegs_segs gs ((lead ++ segsText gs).length + 1) false hgs
        (by have := segs_length_le gs; rw [List.length_append]; omega) hseg
      simp only [List.length_append] at hsegs
      simp [h1, h3, hsegs]
    rw [parseNumberToken]
    rw [hnospace]
    rw [if_neg hne]
    rw [if_pos hgf]
    have hfilter : (lead ++ segsText gs).filter (fun c => !isSepCh c) =
        lead ++ segsDigits gs := by
      rw [List.filter_append]
      rw [List.filter_eq_self.mpr (fun c hc => by rw [digit_not_sep (hld c hc)]; rfl)]
      rw [segsText_filter_sep hseg]
    rw [hfilter]
    apply jsNumber_digits
    · cases lead with
      | nil => exact absurd rfl hleadne
      | cons a l => exact List.cons_ne_nil _ _
    · intro c hc
      rcases List.mem_append.mp hc with hcl | hcd
      · exact hld c hcl
      · exact segsDigits_mem hseg c hcd
  · have h : resAmount (parseTransactionInput ⟨2024, 5, 15⟩
        "rent 8.000.000 vnd".data InputMode.text AppLanguage.en
        Currency.USD none) = some ⟨8000000, 0⟩ := by decide
    rw [resAmountVal, h]
    show some (JNum.val ⟨8000000, 0⟩) = some 8000000
    rw [JNum.val]
    norm_num

set_option maxHeartbeats 1000000 in
/-- Witness for claim C5 at the concrete token 8.000.000. -/
theorem claim_C5_witness :
    parseNumberToken "8.000.000".data = some ⟨8000000, 0⟩ := by
  have h := (claim_C5 ['8'] [('.', ['0', '0', '0']), ('.', ['0', '0', '0'])]
    (by decide) (by decide) (by decide) (by decide) (by decide)).1
  exact h

set_option maxHeartbeats 4000000 in
/-- Claim C6: the shorthand unit multipliers are k and xị times 1000 and
tr, củ, cu, chai, m, mil times 1000000; cafe 45k with VND fallback parses to
amount 45000 and currency VND, lunch 8 usd to amount 8 and currency USD, and
lương 20tr to amount 20000000, currency VND, type income and category Thu
nhập. -/
theorem claim_C6 :
    unitMultiplier (some "k".data) = 1000 ∧
    unitMultiplier (some "xị".data) = 1000 ∧
    unitMultiplier (some "tr".data) = 1000000 ∧
    unitMultiplier (some "củ".data) = 1000000 ∧
    unitMultiplier (some "cu".data) = 1000000 ∧
    unitMultiplier (some "chai".data) = 1000000 ∧
    unitMultiplier (some "m".data) = 1000000 ∧
    unitMultiplier (some "mil".data) = 1000000 ∧
    (resAmountVal (parseTransactionInput ⟨2024, 5, 15⟩ "cafe 45k".data InputMode.text
        AppLanguage.en Currency.VND none) = some 45000 ∧
     resCurrency (parseTransactionInput ⟨2024, 5, 15⟩ "cafe 45k".data InputMode.text
        AppLanguage.en Currency.VND none) = some Currency.VND) ∧
    (resAmountVal (parseTransactionInput ⟨2024, 5, 15⟩ "lunch 8 usd".data InputMode.text
        AppLanguage.en Currency.VND none) = some 8 ∧
     resCurrency (parseTransactionInput ⟨2024, 5, 15⟩ "lunch 8 usd".data InputMode.text
        AppLanguage.en Currency.VND none) = some Currency.USD) ∧
    (resAmountVal (parseTransactionInput ⟨2024, 5, 15⟩ "lương 20tr".data InputMode.text
        AppLanguage.vi Currency.VND none) = some 20000000 ∧
     resCurrency (parseTransactionInput ⟨2024, 5, 15⟩ "lương 20tr".data InputMode.text
        AppLanguage.vi Currency.VND none) = some Currency.VND ∧
     resType (parseTransactionInput ⟨2024, 5, 15⟩ "lương 20tr".data InputMode.text
        AppLanguage.vi Currency.VND none) = some TransactionType.income ∧
     resCategory (parseTransactionInput ⟨2024, 5, 15⟩ "lương 20tr".data InputMode.text
        AppLanguage.vi Currency.VND none) = some "Thu nhập".data) := by
  have ha1 : resAmount (parseTransactionInput ⟨2024, 5, 15⟩ "cafe 45k".data InputMode.text
      AppLanguage.en Currency.VND none) = some ⟨45000, 0⟩ := by decide
  have ha2 : resAmount (parseTransactionInput ⟨2024, 5, 15⟩ "lunch 8 usd".data InputMode.text
      AppLanguage.en Currency.VND none) = some ⟨8, 0⟩ := by decide
  have ha3 : resAmount (parseTransactionInput ⟨2024, 5, 15⟩ "lương 20tr".data InputMode.text
      AppLanguage.vi Currency.VND none) = some ⟨20000000, 0⟩ := by decide
  refine ⟨by decide, by decide, by decide, by decide, by decide, by decide, by decide,
    by decide, ⟨?_, by decide⟩, ⟨?_, by decide⟩, ⟨?_, by decide, by decide, by decide⟩⟩
  · rw [resAmountVal, ha1]
    show some (JNum.val ⟨45000, 0⟩) = some 45000
    rw [JNum.val]
    norm_num
  · rw [resAmountVal, ha2]
    show some (JNum.val ⟨8, 0⟩) = some 8
    rw [JNum.val]
    norm_num
  · rw [resAmountVal, ha3]
    show some (JNum.val ⟨20000000, 0⟩) = some 20000000
    rw [JNum.val]
    norm_num

/-- Claim C7: the currency detector is total with first-match-wins ordering:
a USD cue wins even when VND cues are present, otherwise a VND cue yields
VND, otherwise the caller-supplied fallback is returned. -/
theorem claim_C7 (text : Str) (fb : Currency) :
    (usdCue (lowerStr text) = true → detectCurrency text fb = Currency.USD) ∧
    (usdCue (lowerStr text) = false → vndCue (lowerStr text) = true →
      detectCurrency text fb = Currency.VND) ∧
    (usdCue (lowerStr text) = false → vndCue (lowerStr text) = false →
      detectCurrency text fb = fb) := by
  refine ⟨?_, ?_, ?_⟩
  · intro h
    simp [detectCurrency, h]
  · intro h1 h2
    simp [detectCurrency, h1, h2]
  · intro h1 h2
    simp [detectCurrency, h1, h2]

/-- Witness for claim C7: a text with both cues is USD, a k-suffixed amount
is VND, and a cueless text keeps the fallback. -/
theorem claim_C7_witness :
    detectCurrency "5 usd vnd".data Currency.VND = Currency.USD ∧
    detectCurrency "45k".data Currency.USD = Currency.VND ∧
    detectCurrency "xyz".data Currency.USD = Currency.USD :=
  ⟨(claim_C7 "5 usd vnd".data Currency.VND).1 (by decide),
   (claim_C7 "45k".data Currency.USD).2.1 (by decide) (by decide),
   (claim_C7 "xyz".data Currency.USD).2.2 (by decide) (by decide)⟩

/-- Claim C8: with the clock fixed at a calendar date, an input containing a
yesterday word normalizes to the previous calendar day, and an input with no
date cue at all (no relative word, no ISO date, no slash date) normalizes to
the clock date itself. -/
theorem claim_C8 (today : CivilDate) (text : Str) :
    ((containsSub "yesterday".data (lowerStr text) ||
      containsSub "hôm qua".data (lowerStr text) ||
      containsSub "hom qua".data (lowerStr text)) = true →
      normalizeDate today text = isoOfDate (prevDay today)) ∧
    ((containsSub "yesterday".data (lowerStr text) ||
      containsSub "hôm qua".data (lowerStr text) ||
      containsSub "hom qua".data (lowerStr text)) = false →
     (containsSub "today".data (lowerStr text) ||
      containsSub "hôm nay".data (lowerStr text) ||
      containsSub "hom nay".data (lowerStr text)) = false →
     findISO text = none → findSlash text = none →
     normalizeDate today text = isoOfDate today) := by
  constructor
  · intro h
    rw [normalizeDate]
    simp only [h]
    rfl
  · intro h1 h2 h3 h4
    rw [normalizeDate]
    simp only [h1, h2, h3, h4]
    rfl

/-- Witness for claim C8: on the clock date 2024-03-01 a yesterday input
maps to 2024-02-29 (leap day), and a cueless input maps to 2024-03-01. -/
theorem claim_C8_witness :
    normalizeDate ⟨2024, 3, 1⟩ "hôm qua ăn trưa 60k".data = "2024-02-29".data ∧
    normalizeDate ⟨2024, 3, 1⟩ "cafe 45k".data = "2024-03-01".data := by
  constructor
  · have h := (claim_C8 ⟨2024, 3, 1⟩ "hôm qua ăn trưa 60k".data).1 (by decide)
    rw [h]
    decide
  · have h := (claim_C8 ⟨2024, 3, 1⟩ "cafe 45k".data).2 (by decide) (by decide)
      (by decide) (by decide)
    rw [h]
    decide

set_option maxHeartbeats 1000000 in
/-- Claim C9: income keyword matching is plain substring containment on the
lowercased text, so with no preferred type any input containing thu as a
substring is classified as income; in particular the medicine-purchase
sentence mua thuốc 50k is classified as income. -/
theorem claim_C9 :
    (∀ text : Str, containsSub "thu".data (lowerStr text) = true →
      detectType text none = TransactionType.income) ∧
    resType (parseTransactionInput ⟨2024, 5, 15⟩ "mua thuốc 50k".data InputMode.text
      AppLanguage.vi Currency.VND none) = some TransactionType.income := by
  constructor
  · intro text h
    rw [detectType]
    have hany : incomeKeywords.any (fun k => containsSub k (lowerStr text)) = true :=
      List.any_eq_true.mpr ⟨"thu".data, by decide, h⟩
    simp [hany]
  · decide

/-- Witness for claim C9 at the concrete sentence. -/
theorem claim_C9_witness :
    detectType "mua thuốc 50k".data none = TransactionType.income :=
  (claim_C9).1 "mua thuốc 50k".data (by decide)

/-- Claim C10: the VND cue matches the letter đ anywhere and a k or tr at
the end of any word, so with no USD cue an input containing điện or an
English word ending in k such as book is classified as VND regardless of the
caller-supplied fallback. -/
theorem claim_C10 :
    (∀ (text : Str) (fb : Currency), usdCue (lowerStr text) = false →
      (containsSub "đ".data (lowerStr text) ||
       scanAny (matchLitEnd "k".data) (lowerStr text) ||
       scanAny (matchLitEnd "tr".data) (lowerStr text)) = true →
      detectCurrency text fb = Currency.VND) ∧
    (∀ fb, detectCurrency "book".data fb = Currency.VND) ∧
    (∀ fb, detectCurrency "điện".data fb = Currency.VND) := by
  refine ⟨?_, ?_, ?_⟩
  · intro text fb hu hv
    have hvnd : vndCue (lowerStr text) = true := by
      rw [vndCue]
      rcases Bool.or_eq_true_iff.mp hv with hd | hk
      · rcases Bool.or_eq_true_iff.mp hd with hd2 | hk2
        · simp [hd2]
        · simp [hk2]
      · simp [hk]
    simp [detectCurrency, hu, hvnd]
  · intro fb
    cases fb <;> decide
  · intro fb
    cases fb <;> decide

/-- Witness for claim C10: book with a USD fallback is still VND. -/
theorem claim_C10_witness :
    detectCurrency "book".data Currency.USD = Currency.VND :=
  (claim_C10).1 "book".data Currency.USD (by decide) (by decide)
